import Mathlib

/-!
Verification of the iceoryx fixed-capacity string `iox::cxx::string<Capacity>`
(`iceoryx_utils/include/iceoryx_utils/cxx/string.hpp`).

Bytes are modelled as `Nat` (the null character is `0`).  The object state is
the pair of private members declared in the header:

    char m_rawstring[Capacity + 1]{'\0'};
    size_t m_rawstringSize{0};

The header only declares the member functions; their bodies live in
`iceoryx_utils/internal/cxx/string.inl`, which is not among the sources.
Every operation below is therefore modelled from the specification's
description of its behaviour, as noted in each doc comment.  The raw C
memory-copy of `n` bytes from `src` into `dst` is modelled by `overwrite`.
-/

namespace IceCxx

/-- `overwrite dst src n` models `memcpy(dst, src, n)`: the first `n` bytes of
`dst` are replaced by the first `n` bytes of `src`; the rest of `dst` is kept. -/
def overwrite (dst src : List Nat) (n : Nat) : List Nat :=
  src.take n ++ dst.drop n

/-- State of an `iox::cxx::string<Capacity>` object: the two private data
members declared at lines 282-283 of the header. -/
structure IceString (Capacity : Nat) where
  m_rawstring : List Nat
  m_rawstringSize : Nat
deriving DecidableEq

/-- The buffer produced by the in-class member initializer
`char m_rawstring[Capacity + 1]{'\0'};`: aggregate initialization with one
initializer zero-initializes all `Capacity + 1` elements. -/
def initBuffer (Capacity : Nat) : List Nat :=
  List.replicate (Capacity + 1) 0

/-- Modelled from the spec: the default constructor `string()` (body in the
missing `string.inl`) "produces size 0, terminator at index 0"; the members
keep their in-class initializers from the header. -/
def defaultCtor (Capacity : Nat) : IceString Capacity :=
  ⟨initBuffer Capacity, 0⟩

/-- The logical content `buffer[0, size)` of the string. -/
def contentOf {Capacity : Nat} (s : IceString Capacity) : List Nat :=
  s.m_rawstring.take s.m_rawstringSize

/-- `size()` accessor. -/
def sizeOf {Capacity : Nat} (s : IceString Capacity) : Nat :=
  s.m_rawstringSize

/-- The class invariant stated by the spec: the buffer is the fixed array of
`Capacity + 1` bytes, `size <= Capacity`, and `buffer[size] == '\0'`. -/
def Invariant {Capacity : Nat} (s : IceString Capacity) : Prop :=
  s.m_rawstring.length = Capacity + 1 ∧
  s.m_rawstringSize ≤ Capacity ∧
  s.m_rawstring[s.m_rawstringSize]? = some 0

instance {Capacity : Nat} (s : IceString Capacity) : Decidable (Invariant s) := by
  unfold Invariant; infer_instance

/-- Modelled from the spec: the copy constructor `string(const string&)` (body
in the missing `string.inl`) "duplicates `size` and the first `size + 1` bytes
of `buffer`"; the new object's members start from their in-class initializers. -/
def copyCtor {Capacity : Nat} (other : IceString Capacity) : IceString Capacity :=
  ⟨overwrite (initBuffer Capacity) other.m_rawstring (other.m_rawstringSize + 1),
   other.m_rawstringSize⟩

/-- Modelled from the spec: copy assignment `operator=(const string&)` (body in
the missing `string.inl`) "replaces all contents, same invariants as the
copy/move constructor": it copies `size` and the first `size + 1` buffer bytes
onto the existing buffer. -/
def copyAssign {Capacity : Nat} (self rhs : IceString Capacity) : IceString Capacity :=
  ⟨overwrite self.m_rawstring rhs.m_rawstring (rhs.m_rawstringSize + 1),
   rhs.m_rawstringSize⟩

/-- Modelled from the spec: the moved-from state after `string(string&&)` or
`operator=(string&&)` — the source is left "in a valid default-equivalent
state" (size 0, terminator at index 0). -/
def movedFrom {Capacity : Nat} (s : IceString Capacity) : IceString Capacity :=
  ⟨s.m_rawstring.set 0 0, 0⟩

/-- Modelled from the spec: the move constructor `string(string&&)` (body in
the missing `string.inl`) transfers `size` and the first `size + 1` buffer
bytes and leaves the origin default-equivalent.  Returns (destination, origin
afterwards). -/
def moveCtor {Capacity : Nat} (other : IceString Capacity) :
    IceString Capacity × IceString Capacity :=
  (copyCtor other, movedFrom other)

/-- Modelled from the spec: move assignment `operator=(string&&)` (body in the
missing `string.inl`), same transfer as the move constructor but onto an
existing object.  Returns (destination afterwards, origin afterwards). -/
def moveAssign {Capacity : Nat} (self rhs : IceString Capacity) :
    IceString Capacity × IceString Capacity :=
  (copyAssign self rhs, movedFrom rhs)

/-- Modelled from the spec: the checked char-array assignment
`operator=(const char (&rhs)[N])` / `assign(const char (&str)[N])` (bodies in
the missing `string.inl`).  The array of `N = s.length + 1` chars (content `s`
plus its own terminator) is accepted only under the compile-time constraint
`N - 1 <= Capacity`; all `N` bytes are copied, no truncation, size becomes
`s.length`. -/
def assignArray {Capacity : Nat} (self : IceString Capacity) (s : List Nat) :
    IceString Capacity :=
  ⟨overwrite self.m_rawstring (s ++ [0]) (s.length + 1), s.length⟩

/-- Modelled from the spec: the checked conversion constructor
`string(const char (&other)[N])` (body in the missing `string.inl`), the same
contract as the checked assignment applied to a fresh object. -/
def ctorArray (Capacity : Nat) (s : List Nat) : IceString Capacity :=
  assignArray (defaultCtor Capacity) s

/-- Modelled from the spec: the truncating conversion constructor
`string(UnsafeCheckPreconditions_t, const char* const)` (body in the missing
`string.inl`): "copies up to `N` bytes; if the input's length exceeds `N`, the
excess is silently discarded and the result is always null-terminated at the
resulting `size`".  `s` is the pointee's content up to (excluding) its
terminator. -/
def truncCtorRaw (Capacity : Nat) (s : List Nat) : IceString Capacity :=
  let sz := min s.length Capacity
  ⟨(overwrite (initBuffer Capacity) s sz).set sz 0, sz⟩

/-- Modelled from the spec: the truncating conversion constructor
`string(UnsafeCheckPreconditions_t, const std::string&)` (body in the missing
`string.inl`): "same truncation rule as above, applied to the dynamic string's
contents".  `s` is the `std::string`'s byte content. -/
def truncCtorStd (Capacity : Nat) (s : List Nat) : IceString Capacity :=
  let sz := min s.length Capacity
  ⟨(overwrite (initBuffer Capacity) s sz).set sz 0, sz⟩

/-- Modelled from the spec: the counted-buffer constructor
`string(UnsafeCheckPreconditions_t, const char* const, const uint64_t)` (body
in the missing `string.inl`): "copies `min(count, N)` bytes starting at the
buffer's start, regardless of whether a null byte appears within that range;
sets `size = min(count, N)`; always writes a terminator at the resulting
`size`".  `s` is the raw memory readable from the pointer. -/
def countedCtor (Capacity : Nat) (s : List Nat) (count : Nat) : IceString Capacity :=
  let sz := min count Capacity
  ⟨(overwrite (initBuffer Capacity) s sz).set sz 0, sz⟩

/-- Modelled from the spec: the fallible assignment `unsafe_assign(const char*
const)` (body in the missing `string.inl`): fails iff the input is longer than
the capacity; "success copies the entire input and updates size/terminator
exactly; failure leaves the receiver's contents unchanged".  Returns (result
flag, receiver afterwards). -/
def fallibleAssignRaw {Capacity : Nat} (self : IceString Capacity) (s : List Nat) :
    Bool × IceString Capacity :=
  if s.length ≤ Capacity then
    (true, ⟨(overwrite self.m_rawstring s s.length).set s.length 0, s.length⟩)
  else
    (false, self)

/-- Modelled from the spec: the fallible assignment
`unsafe_assign(const std::string&)` (body in the missing `string.inl`), the
same contract applied to the `std::string`'s byte content. -/
def fallibleAssignStd {Capacity : Nat} (self : IceString Capacity) (s : List Nat) :
    Bool × IceString Capacity :=
  if s.length ≤ Capacity then
    (true, ⟨(overwrite self.m_rawstring s s.length).set s.length 0, s.length⟩)
  else
    (false, self)

/-- Modelled from the spec: the fixed-string member `assign(const string&)`
(body in the missing `string.inl`), which "replaces all contents" like copy
assignment. -/
def assignIce {Capacity : Nat} (self str : IceString Capacity) : IceString Capacity :=
  copyAssign self str

/-- Three-way lexicographic byte comparison of two content lists, returning
`-1`, `0` or `1`. -/
def lexCompare : List Nat → List Nat → Int
  | [], [] => 0
  | [], _ :: _ => -1
  | _ :: _, [] => 1
  | a :: as, b :: bs =>
    if a < b then -1 else if b < a then 1 else lexCompare as bs

/-- Modelled from the spec: `compare(const string)` (body in the missing
`string.inl`) is the three-way lexicographic comparison of the logical
contents `buffer[0, size)` of both operands. -/
def compareIce {Capacity : Nat} (a b : IceString Capacity) : Int :=
  lexCompare (contentOf a) (contentOf b)

/-- Modelled from the spec: `operator==`, derived from the three-way
comparison. -/
def opEq {Capacity : Nat} (a b : IceString Capacity) : Bool :=
  compareIce a b == 0

/-- Modelled from the spec: `operator!=`, derived from the three-way
comparison. -/
def opNe {Capacity : Nat} (a b : IceString Capacity) : Bool :=
  compareIce a b != 0

/-- Modelled from the spec: `operator<`, derived from the three-way
comparison. -/
def opLt {Capacity : Nat} (a b : IceString Capacity) : Bool :=
  decide (compareIce a b < 0)

/-- Modelled from the spec: `operator<=`, derived from the three-way
comparison. -/
def opLe {Capacity : Nat} (a b : IceString Capacity) : Bool :=
  decide (compareIce a b ≤ 0)

/-- Modelled from the spec: `operator>`, derived from the three-way
comparison. -/
def opGt {Capacity : Nat} (a b : IceString Capacity) : Bool :=
  decide (0 < compareIce a b)

/-- Modelled from the spec: `operator>=`, derived from the three-way
comparison. -/
def opGe {Capacity : Nat} (a b : IceString Capacity) : Bool :=
  decide (0 ≤ compareIce a b)

/-- Modelled from the spec: `operator std::string()` (body in the missing
`string.inl`) "produces a new owned value containing exactly
`buffer[0, size)`". -/
def toStdString {Capacity : Nat} (s : IceString Capacity) : List Nat :=
  contentOf s

/-! ### Helper lemmas about `overwrite`, `List.set` and `List.take` -/

theorem length_overwrite (dst src : List Nat) (n : Nat) (h1 : n ≤ src.length)
    (h2 : n ≤ dst.length) : (overwrite dst src n).length = dst.length := by
  simp only [overwrite, List.length_append, List.length_take, List.length_drop]
  omega

theorem take_overwrite (dst src : List Nat) (m n : Nat) (h1 : n ≤ m)
    (h2 : m ≤ src.length) : (overwrite dst src m).take n = src.take n := by
  rw [overwrite, List.take_append_eq_append_take]
  have hlen : (src.take m).length = m := by
    simp only [List.length_take]; omega
  rw [hlen, List.take_take, Nat.sub_eq_zero_of_le h1, List.take_zero,
    List.append_nil, Nat.min_eq_left h1]

theorem getElem?_overwrite_lt (dst src : List Nat) (n i : Nat) (h1 : i < n)
    (h2 : n ≤ src.length) : (overwrite dst src n)[i]? = src[i]? := by
  rw [overwrite, List.getElem?_append_left, List.getElem?_take_of_lt h1]
  simp only [List.length_take]
  omega

theorem take_set_self (l : List Nat) (n a : Nat) : (l.set n a).take n = l.take n := by
  apply List.ext_getElem?
  intro i
  by_cases h : i < n
  · rw [List.getElem?_take_of_lt h, List.getElem?_take_of_lt h,
      List.getElem?_set_ne (by omega)]
  · rw [List.getElem?_take_eq_none (by omega), List.getElem?_take_eq_none (by omega)]

/-! ### Properties of the three-way lexicographic comparison -/

theorem lexCompare_cases : ∀ a b : List Nat,
    lexCompare a b = -1 ∨ lexCompare a b = 0 ∨ lexCompare a b = 1
  | [], [] => by simp [lexCompare]
  | [], _ :: _ => by simp [lexCompare]
  | _ :: _, [] => by simp [lexCompare]
  | a :: as, b :: bs => by
    simp only [lexCompare]
    split
    · simp
    · split
      · simp
      · exact lexCompare_cases as bs

theorem lexCompare_eq_zero_iff : ∀ a b : List Nat, lexCompare a b = 0 ↔ a = b
  | [], [] => by simp [lexCompare]
  | [], _ :: _ => by simp [lexCompare]
  | _ :: _, [] => by simp [lexCompare]
  | a :: as, b :: bs => by
    simp only [lexCompare, List.cons.injEq]
    by_cases h1 : a < b
    · rw [if_pos h1]
      constructor
      · intro h; omega
      · intro h; omega
    · by_cases h2 : b < a
      · rw [if_neg h1, if_pos h2]
        constructor
        · intro h; omega
        · intro h; omega
      · rw [if_neg h1, if_neg h2, lexCompare_eq_zero_iff as bs]
        constructor
        · intro h; exact ⟨by omega, h⟩
        · intro h; exact h.2

theorem lexCompare_eq_neg_one_iff : ∀ a b : List Nat,
    lexCompare a b = -1 ↔ List.Lex (· < ·) a b
  | [], [] => by
    simp only [lexCompare]
    constructor
    · intro h; omega
    · intro h; cases h
  | [], _ :: _ => by
    constructor
    · intro _; exact List.Lex.nil
    · intro _; simp [lexCompare]
  | _ :: _, [] => by
    simp only [lexCompare]
    constructor
    · intro h; omega
    · intro h; cases h
  | a :: as, b :: bs => by
    simp only [lexCompare]
    by_cases h1 : a < b
    · rw [if_pos h1]
      exact ⟨fun _ => List.Lex.rel h1, fun _ => rfl⟩
    · by_cases h2 : b < a
      · rw [if_neg h1, if_pos h2]
        constructor
        · intro h; omega
        · intro h
          cases h with
          | cons h3 => omega
          | rel h3 => omega
      · rw [if_neg h1, if_neg h2]
        have hab : a = b := by omega
        subst hab
        rw [lexCompare_eq_neg_one_iff as bs]
        constructor
        · intro h; exact List.Lex.cons h
        · intro h
          cases h with
          | cons h3 => exact h3
          | rel h3 => omega

theorem lexCompare_swap : ∀ a b : List Nat, lexCompare b a = -(lexCompare a b)
  | [], [] => by simp [lexCompare]
  | [], _ :: _ => by simp [lexCompare]
  | _ :: _, [] => by simp [lexCompare]
  | a :: as, b :: bs => by
    simp only [lexCompare]
    by_cases h1 : a < b
    · rw [if_pos h1, if_neg (by omega : ¬ b < a), if_pos h1]
      omega
    · by_cases h2 : b < a
      · rw [if_pos h2, if_neg h1, if_pos h2]
      · rw [if_neg h1, if_neg h2, if_neg h2, if_neg h1, lexCompare_swap as bs]

theorem lex_lt_trans : ∀ {a b c : List Nat},
    List.Lex (· < ·) a b → List.Lex (· < ·) b c → List.Lex (· < ·) a c := by
  intro a b c h1 h2
  induction h1 generalizing c with
  | nil =>
    cases h2 with
    | rel h => exact List.Lex.nil
    | cons h => exact List.Lex.nil
  | rel h3 =>
    cases h2 with
    | rel h4 => exact List.Lex.rel (by omega)
    | cons h4 => exact List.Lex.rel h3
  | cons h3 ih =>
    cases h2 with
    | rel h4 => exact List.Lex.rel h4
    | cons h4 => exact List.Lex.cons (ih h4)

theorem lexCompare_trans_neg {a b c : List Nat} (h1 : lexCompare a b = -1)
    (h2 : lexCompare b c = -1) : lexCompare a c = -1 := by
  rw [lexCompare_eq_neg_one_iff] at h1 h2 ⊢
  exact lex_lt_trans h1 h2

/-! ### Derived facts about the write-then-terminate buffer pattern -/

theorem take_overwrite_set (dst s : List Nat) (n : Nat) (h : n ≤ s.length) :
    ((overwrite dst s n).set n 0).take n = s.take n := by
  rw [take_set_self, take_overwrite dst s n n le_rfl h]

theorem length_overwrite_set (dst s : List Nat) (n : Nat) (h1 : n ≤ s.length)
    (h2 : n ≤ dst.length) : ((overwrite dst s n).set n 0).length = dst.length := by
  rw [List.length_set, length_overwrite dst s n h1 h2]

theorem getElem?_overwrite_set (dst s : List Nat) (n : Nat) (h1 : n ≤ s.length)
    (h2 : n < dst.length) : ((overwrite dst s n).set n 0)[n]? = some 0 := by
  apply List.getElem?_set_eq_of_lt
  rw [length_overwrite dst s n h1 (Nat.le_of_lt h2)]
  exact h2

theorem length_initBuffer (Capacity : Nat) :
    (initBuffer Capacity).length = Capacity + 1 := by
  simp [initBuffer]

theorem getElem?_append_terminator (l : List Nat) : (l ++ [0])[l.length]? = some 0 := by
  rw [List.getElem?_append_right (Nat.le_refl l.length)]
  simp

/-- Invariant of the pattern "copy `n` bytes, write a terminator at `n`, set
size to `n`" shared by the truncating constructors and the fallible
assignments. -/
theorem invariant_write {Capacity : Nat} (dst s : List Nat) (n : Nat)
    (hdst : dst.length = Capacity + 1) (hn : n ≤ Capacity) (hs : n ≤ s.length) :
    Invariant (⟨(overwrite dst s n).set n 0, n⟩ : IceString Capacity) := by
  unfold Invariant
  refine ⟨?_, hn, ?_⟩
  · rw [length_overwrite_set dst s n hs (by omega)]
    exact hdst
  · exact getElem?_overwrite_set dst s n hs (by omega)

/-- Invariant of the pattern "copy `size + 1` bytes of another string" shared
by the copy/move constructor and assignment. -/
theorem invariant_copy {Capacity : Nat} (dst : List Nat) (src : IceString Capacity)
    (hdst : dst.length = Capacity + 1) (hsrc : Invariant src) :
    Invariant (⟨overwrite dst src.m_rawstring (src.m_rawstringSize + 1),
      src.m_rawstringSize⟩ : IceString Capacity) := by
  obtain ⟨hl, hsz, hterm⟩ := hsrc
  unfold Invariant
  dsimp only
  refine ⟨?_, hsz, ?_⟩
  · rw [length_overwrite _ _ _ (by omega) (by omega)]
    exact hdst
  · rw [getElem?_overwrite_lt _ _ _ _ (by omega) (by omega)]
    exact hterm

theorem invariant_movedFrom {Capacity : Nat} (s : IceString Capacity)
    (hs : Invariant s) : Invariant (movedFrom s) := by
  obtain ⟨hl, _, _⟩ := hs
  unfold Invariant movedFrom
  refine ⟨by simpa using hl, Nat.zero_le _, ?_⟩
  exact List.getElem?_set_eq_of_lt 0 (by omega)

theorem invariant_default (Capacity : Nat) : Invariant (defaultCtor Capacity) := by
  unfold Invariant defaultCtor initBuffer
  refine ⟨by simp, Nat.zero_le _, by simp⟩

/-- Invariant of the checked array-assignment pattern. -/
theorem invariant_assignArray {Capacity : Nat} (self : IceString Capacity)
    (l : List Nat) (hself : Invariant self) (hl : l.length ≤ Capacity) :
    Invariant (assignArray self l) := by
  obtain ⟨hlen, _, _⟩ := hself
  unfold Invariant assignArray
  dsimp only
  refine ⟨?_, hl, ?_⟩
  · rw [length_overwrite _ _ _ (by simp) (by omega)]
    exact hlen
  · rw [getElem?_overwrite_lt _ _ _ _ (by omega) (by simp)]
    exact getElem?_append_terminator l

/-- Full behaviour of the shared fallible-assignment body: success iff the
input fits, exact copy on success, receiver untouched on failure. -/
theorem fallible_aux {Capacity : Nat} (self : IceString Capacity) (s : List Nat)
    (hinv : Invariant self) :
    ((fallibleAssignRaw self s).1 = true ↔ s.length ≤ Capacity) ∧
    (s.length ≤ Capacity →
      contentOf (fallibleAssignRaw self s).2 = s ∧
      sizeOf (fallibleAssignRaw self s).2 = s.length ∧
      (fallibleAssignRaw self s).2.m_rawstring[s.length]? = some 0) ∧
    (¬ s.length ≤ Capacity → (fallibleAssignRaw self s).2 = self) := by
  unfold fallibleAssignRaw
  by_cases h : s.length ≤ Capacity
  · rw [if_pos h]
    refine ⟨by simp [h], fun _ => ⟨?_, rfl, ?_⟩, fun hc => absurd h hc⟩
    · show ((overwrite self.m_rawstring s s.length).set s.length 0).take s.length = s
      rw [take_overwrite_set _ _ _ le_rfl, List.take_length]
    · exact getElem?_overwrite_set _ _ _ le_rfl (by rw [hinv.1]; omega)
  · rw [if_neg h]
    exact ⟨by simp [h], fun hc => absurd hc h, fun _ => rfl⟩

/-- Shared behaviour of the two truncating constructors, phrased with the
resulting size `min (length input) Capacity`. -/
theorem trunc_aux (Capacity : Nat) (s : List Nat) :
    sizeOf (truncCtorRaw Capacity s) = min s.length Capacity ∧
    contentOf (truncCtorRaw Capacity s) = s.take (min s.length Capacity) ∧
    (truncCtorRaw Capacity s).m_rawstring[min s.length Capacity]? = some 0 := by
  unfold truncCtorRaw sizeOf contentOf
  dsimp only
  refine ⟨rfl, ?_, ?_⟩
  · rw [take_overwrite_set _ _ _ (Nat.min_le_left _ _)]
  · exact getElem?_overwrite_set _ _ _ (Nat.min_le_left _ _)
      (by rw [length_initBuffer]; omega)

/-- Full behaviour of the checked array assignment: exact copy, no
truncation, terminator written behind the content. -/
theorem assignArray_aux {Capacity : Nat} (self : IceString Capacity) (s : List Nat) :
    contentOf (assignArray self s) = s ∧
    sizeOf (assignArray self s) = s.length ∧
    (assignArray self s).m_rawstring[s.length]? = some 0 := by
  unfold assignArray contentOf sizeOf
  dsimp only
  refine ⟨?_, rfl, ?_⟩
  · rw [take_overwrite _ _ (s.length + 1) s.length (by omega) (by simp),
      List.take_left' rfl]
  · rw [getElem?_overwrite_lt _ _ _ _ (by omega) (by simp)]
    exact getElem?_append_terminator s

/-! ### Claim theorems -/

/-- C1: for every bounded string target and every input (raw buffer content or
dynamic string content), `unsafe_assign` succeeds iff the input length is at
most `Capacity`; on success the target's content and size equal the input
exactly, with the terminator at the new size; on failure the target is
completely unchanged. -/
theorem unsafe_assign_spec (Capacity : Nat) (self : IceString Capacity)
    (s : List Nat) (hinv : Invariant self) :
    (((fallibleAssignRaw self s).1 = true ↔ s.length ≤ Capacity) ∧
      (s.length ≤ Capacity →
        contentOf (fallibleAssignRaw self s).2 = s ∧
        sizeOf (fallibleAssignRaw self s).2 = s.length ∧
        (fallibleAssignRaw self s).2.m_rawstring[s.length]? = some 0) ∧
      (¬ s.length ≤ Capacity → (fallibleAssignRaw self s).2 = self)) ∧
    (((fallibleAssignStd self s).1 = true ↔ s.length ≤ Capacity) ∧
      (s.length ≤ Capacity →
        contentOf (fallibleAssignStd self s).2 = s ∧
        sizeOf (fallibleAssignStd self s).2 = s.length ∧
        (fallibleAssignStd self s).2.m_rawstring[s.length]? = some 0) ∧
      (¬ s.length ≤ Capacity → (fallibleAssignStd self s).2 = self)) :=
  ⟨fallible_aux self s hinv, fallible_aux self s hinv⟩

/-- C1 witness: the spec's own example — a capacity-4 string holding `"xy"`,
fallibly assigned the 6-byte input `"abcdef"`, reports failure and is left
unchanged. -/
theorem unsafe_assign_spec_witness :
    Invariant (⟨[120, 121, 0, 0, 0], 2⟩ : IceString 4) ∧
    (fallibleAssignRaw (⟨[120, 121, 0, 0, 0], 2⟩ : IceString 4)
        [97, 98, 99, 100, 101, 102]).2 = ⟨[120, 121, 0, 0, 0], 2⟩ :=
  ⟨by decide,
    (unsafe_assign_spec 4 ⟨[120, 121, 0, 0, 0], 2⟩ [97, 98, 99, 100, 101, 102]
        (by decide)).1.2.2 (by decide)⟩

/-- C3: the truncating constructors (raw-buffer and dynamic-string variants)
produce, for inputs longer than `Capacity`, a string of size exactly
`Capacity` holding the first `Capacity` input bytes with a terminator at index
`Capacity`; inputs of length at most `Capacity` are copied in full. -/
theorem trunc_ctor_spec (Capacity : Nat) (s : List Nat) :
    (Capacity < s.length →
      sizeOf (truncCtorRaw Capacity s) = Capacity ∧
      contentOf (truncCtorRaw Capacity s) = s.take Capacity ∧
      (truncCtorRaw Capacity s).m_rawstring[Capacity]? = some 0 ∧
      sizeOf (truncCtorStd Capacity s) = Capacity ∧
      contentOf (truncCtorStd Capacity s) = s.take Capacity ∧
      (truncCtorStd Capacity s).m_rawstring[Capacity]? = some 0) ∧
    (s.length ≤ Capacity →
      sizeOf (truncCtorRaw Capacity s) = s.length ∧
      contentOf (truncCtorRaw Capacity s) = s ∧
      sizeOf (truncCtorStd Capacity s) = s.length ∧
      contentOf (truncCtorStd Capacity s) = s) := by
  obtain ⟨hsz, hcontent, hterm⟩ := trunc_aux Capacity s
  have hstd : truncCtorStd Capacity s = truncCtorRaw Capacity s := rfl
  constructor
  · intro h
    have hmin : min s.length Capacity = Capacity := Nat.min_eq_right (Nat.le_of_lt h)
    rw [hmin] at hsz hcontent hterm
    exact ⟨hsz, hcontent, hterm, by rw [hstd]; exact hsz,
      by rw [hstd]; exact hcontent, by rw [hstd]; exact hterm⟩
  · intro h
    have hmin : min s.length Capacity = s.length := Nat.min_eq_left h
    rw [hmin] at hsz hcontent
    rw [List.take_length] at hcontent
    exact ⟨hsz, hcontent, by rw [hstd]; exact hsz, by rw [hstd]; exact hcontent⟩

/-- C3 witness: capacity 4 with the 6-byte input `"abcdef"` truncates to size
4 and content `"abcd"`, terminated at index 4. -/
theorem trunc_ctor_spec_witness :
    4 < ([97, 98, 99, 100, 101, 102] : List Nat).length ∧
    contentOf (truncCtorRaw 4 [97, 98, 99, 100, 101, 102]) = [97, 98, 99, 100] :=
  ⟨by decide,
    ((trunc_ctor_spec 4 [97, 98, 99, 100, 101, 102]).1 (by decide)).2.1.trans (by decide)⟩

/-- C4: the counted-buffer constructor copies exactly `min count Capacity`
bytes from the start of the buffer — embedded null bytes included, as data —
sets the size to `min count Capacity` and writes a terminator there.  The
hypothesis states that the raw buffer holds at least the bytes that are read. -/
theorem counted_ctor_spec (Capacity : Nat) (s : List Nat) (count : Nat)
    (h : min count Capacity ≤ s.length) :
    contentOf (countedCtor Capacity s count) = s.take (min count Capacity) ∧
    sizeOf (countedCtor Capacity s count) = min count Capacity ∧
    (countedCtor Capacity s count).m_rawstring[min count Capacity]? = some 0 := by
  unfold countedCtor contentOf sizeOf
  dsimp only
  refine ⟨?_, rfl, ?_⟩
  · rw [take_overwrite_set _ _ _ h]
  · exact getElem?_overwrite_set _ _ _ h (by rw [length_initBuffer]; omega)

/-- C4 witness: a buffer with an embedded null byte before `count` keeps all
`count` bytes as data. -/
theorem counted_ctor_spec_witness :
    min 3 4 ≤ ([97, 0, 98] : List Nat).length ∧
    contentOf (countedCtor 4 [97, 0, 98] 3) = [97, 0, 98] :=
  ⟨by decide, (counted_ctor_spec 4 [97, 0, 98] 3 (by decide)).1.trans (by decide)⟩

/-- C5: for every positive capacity and every char array accepted by the
checked constructor or checked assignment (array length `M = s.length + 1`,
accepted under the compile-time constraint `M - 1 ≤ Capacity`), the result's
content equals the array's characters exactly, its size is `M - 1`, the byte
at index `size` is `'\0'`, and no truncation occurs. -/
theorem checked_ctor_assign_spec (Capacity : Nat) (s : List Nat)
    (self : IceString Capacity) (hcap : 0 < Capacity)
    (hlen : s.length ≤ Capacity) :
    contentOf (ctorArray Capacity s) = s ∧
    sizeOf (ctorArray Capacity s) = s.length ∧
    (ctorArray Capacity s).m_rawstring[s.length]? = some 0 ∧
    contentOf (assignArray self s) = s ∧
    sizeOf (assignArray self s) = s.length ∧
    (assignArray self s).m_rawstring[s.length]? = some 0 := by
  obtain ⟨h1, h2, h3⟩ := assignArray_aux (defaultCtor Capacity) s
  obtain ⟨h4, h5, h6⟩ := assignArray_aux self s
  exact ⟨h1, h2, h3, h4, h5, h6⟩

/-- C5 witness: the spec's example — capacity 4 constructed from the literal
`"abcd"` (array length 5) yields size 4 and content `"abcd"`. -/
theorem checked_ctor_assign_spec_witness :
    0 < 4 ∧ ([97, 98, 99, 100] : List Nat).length ≤ 4 ∧
    contentOf (ctorArray 4 [97, 98, 99, 100]) = [97, 98, 99, 100] ∧
    sizeOf (ctorArray 4 [97, 98, 99, 100]) = 4 :=
  ⟨by decide, by decide,
    (checked_ctor_assign_spec 4 [97, 98, 99, 100] (defaultCtor 4) (by decide)
      (by decide)).1,
    ((checked_ctor_assign_spec 4 [97, 98, 99, 100] (defaultCtor 4) (by decide)
      (by decide)).2.1).trans (by decide)⟩

/-- C2: every modelled operation of the bounded string — the default, copy,
move, checked-array, truncating, counted and fallible construction/assignment
operations, the fallible ones on both their success and failure paths —
preserves the invariant that `size ≤ Capacity` and that the buffer byte at
index `size` is `'\0'` (with the buffer keeping its fixed `Capacity + 1`
length). -/
theorem invariant_all_operations (Capacity : Nat) :
    Invariant (defaultCtor Capacity) ∧
    (∀ s : IceString Capacity, Invariant s → Invariant (copyCtor s)) ∧
    (∀ s rhs : IceString Capacity, Invariant s → Invariant rhs →
      Invariant (copyAssign s rhs)) ∧
    (∀ s : IceString Capacity, Invariant s →
      Invariant (moveCtor s).1 ∧ Invariant (moveCtor s).2) ∧
    (∀ s rhs : IceString Capacity, Invariant s → Invariant rhs →
      Invariant (moveAssign s rhs).1 ∧ Invariant (moveAssign s rhs).2) ∧
    (∀ l : List Nat, l.length ≤ Capacity → Invariant (ctorArray Capacity l)) ∧
    (∀ (s : IceString Capacity) (l : List Nat), Invariant s → l.length ≤ Capacity →
      Invariant (assignArray s l)) ∧
    (∀ l : List Nat, Invariant (truncCtorRaw Capacity l)) ∧
    (∀ l : List Nat, Invariant (truncCtorStd Capacity l)) ∧
    (∀ (l : List Nat) (count : Nat), min count Capacity ≤ l.length →
      Invariant (countedCtor Capacity l count)) ∧
    (∀ s str : IceString Capacity, Invariant s → Invariant str →
      Invariant (assignIce s str)) ∧
    (∀ (s : IceString Capacity) (l : List Nat), Invariant s →
      Invariant (fallibleAssignRaw s l).2) ∧
    (∀ (s : IceString Capacity) (l : List Nat), Invariant s →
      Invariant (fallibleAssignStd s l).2) := by
  refine ⟨invariant_default Capacity, ?_, ?_, ?_, ?_, ?_, ?_, ?_, ?_, ?_, ?_, ?_, ?_⟩
  · intro s hs
    exact invariant_copy _ s (length_initBuffer Capacity) hs
  · intro s rhs hs hrhs
    exact invariant_copy _ rhs hs.1 hrhs
  · intro s hs
    exact ⟨invariant_copy _ s (length_initBuffer Capacity) hs, invariant_movedFrom s hs⟩
  · intro s rhs hs hrhs
    exact ⟨invariant_copy _ rhs hs.1 hrhs, invariant_movedFrom rhs hrhs⟩
  · intro l hl
    exact invariant_assignArray (defaultCtor Capacity) l (invariant_default Capacity) hl
  · intro s l hs hl
    exact invariant_assignArray s l hs hl
  · intro l
    exact invariant_write _ l _ (length_initBuffer Capacity)
      (Nat.min_le_right _ _) (Nat.min_le_left _ _)
  · intro l
    exact invariant_write _ l _ (length_initBuffer Capacity)
      (Nat.min_le_right _ _) (Nat.min_le_left _ _)
  · intro l count h
    exact invariant_write _ l _ (length_initBuffer Capacity) (Nat.min_le_right _ _) h
  · intro s str hs hstr
    exact invariant_copy _ str hs.1 hstr
  · intro s l hs
    unfold fallibleAssignRaw
    split
    · exact invariant_write _ l _ hs.1 (by assumption) le_rfl
    · exact hs
  · intro s l hs
    unfold fallibleAssignStd
    split
    · exact invariant_write _ l _ hs.1 (by assumption) le_rfl
    · exact hs

/-- C2 witness: the invariant holds after a concrete copy construction. -/
theorem invariant_all_operations_witness :
    Invariant (⟨[104, 105, 0, 0], 2⟩ : IceString 3) ∧
    Invariant (copyCtor (⟨[104, 105, 0, 0], 2⟩ : IceString 3)) :=
  ⟨by decide, (invariant_all_operations 3).2.1 ⟨[104, 105, 0, 0], 2⟩ (by decide)⟩

theorem length_contentOf {Capacity : Nat} (s : IceString Capacity)
    (hs : Invariant s) : (contentOf s).length = sizeOf s := by
  obtain ⟨hl, hsz, _⟩ := hs
  unfold contentOf sizeOf
  rw [List.length_take, hl]
  omega

theorem compareIce_swap {Capacity : Nat} (a b : IceString Capacity) :
    compareIce b a = -(compareIce a b) := by
  unfold compareIce
  exact lexCompare_swap _ _

/-- C6: `compare` inspects only the logical contents `buffer[0, size)` of the
two operands; it is strictly negative iff `self` sorts strictly before `other`
in lexicographic byte order (first differing byte smaller, or strict prefix),
zero iff both operands have equal size and identical content bytes, and
strictly positive iff `other` sorts strictly before `self`. -/
theorem compare_spec (Capacity : Nat) (a b : IceString Capacity)
    (ha : Invariant a) (hb : Invariant b) :
    (∀ a' b' : IceString Capacity, contentOf a' = contentOf a →
      contentOf b' = contentOf b → compareIce a' b' = compareIce a b) ∧
    (compareIce a b < 0 ↔ List.Lex (· < ·) (contentOf a) (contentOf b)) ∧
    (compareIce a b = 0 ↔ (sizeOf a = sizeOf b ∧ contentOf a = contentOf b)) ∧
    (0 < compareIce a b ↔ List.Lex (· < ·) (contentOf b) (contentOf a)) := by
  refine ⟨?_, ?_, ?_, ?_⟩
  · intro a' b' h1 h2
    unfold compareIce
    rw [h1, h2]
  · rw [← lexCompare_eq_neg_one_iff]
    unfold compareIce
    rcases lexCompare_cases (contentOf a) (contentOf b) with h | h | h <;>
      rw [h] <;> constructor <;> intro <;> omega
  · unfold compareIce
    rw [lexCompare_eq_zero_iff]
    constructor
    · intro h
      refine ⟨?_, h⟩
      rw [← length_contentOf a ha, ← length_contentOf b hb, h]
    · exact fun h => h.2
  · have hsw := lexCompare_swap (contentOf b) (contentOf a)
    rw [← lexCompare_eq_neg_one_iff]
    unfold compareIce
    rcases lexCompare_cases (contentOf a) (contentOf b) with h | h | h <;>
      rw [h] <;> rw [h] at hsw <;> constructor <;> intro <;> omega

/-- C6 witness: on `"hi"` and `"hj"` the comparison is strictly negative and
the lexicographic relation holds. -/
theorem compare_spec_witness :
    Invariant (⟨[104, 105, 0, 0], 2⟩ : IceString 3) ∧
    Invariant (⟨[104, 106, 0, 0], 2⟩ : IceString 3) ∧
    List.Lex (· < ·) (contentOf (⟨[104, 105, 0, 0], 2⟩ : IceString 3))
      (contentOf (⟨[104, 106, 0, 0], 2⟩ : IceString 3)) :=
  ⟨by decide, by decide,
    (compare_spec 3 ⟨[104, 105, 0, 0], 2⟩ ⟨[104, 106, 0, 0], 2⟩ (by decide)
        (by decide)).2.1.mp (by decide)⟩

/-- C7: the six relational operators agree with the three-way comparison
(`==` iff zero, `<` iff negative, and so on), equality is reflexive, the
ordering is antisymmetric and transitive, and for every pair exactly one of
`<`, `==`, `>` holds. -/
theorem operators_spec (Capacity : Nat) (a b c : IceString Capacity) :
    (opEq a b = true ↔ compareIce a b = 0) ∧
    (opNe a b = true ↔ ¬compareIce a b = 0) ∧
    (opLt a b = true ↔ compareIce a b < 0) ∧
    (opLe a b = true ↔ compareIce a b ≤ 0) ∧
    (opGt a b = true ↔ 0 < compareIce a b) ∧
    (opGe a b = true ↔ 0 ≤ compareIce a b) ∧
    opEq a a = true ∧
    (opLe a b = true → opLe b a = true → opEq a b = true) ∧
    (opLt a b = true → opLt b c = true → opLt a c = true) ∧
    ((opLt a b = true ∧ opEq a b = false ∧ opGt a b = false) ∨
      (opLt a b = false ∧ opEq a b = true ∧ opGt a b = false) ∨
      (opLt a b = false ∧ opEq a b = false ∧ opGt a b = true)) := by
  have hswap := compareIce_swap a b
  refine ⟨by simp [opEq], by simp [opNe], by simp [opLt], by simp [opLe],
    by simp [opGt], by simp [opGe], ?_, ?_, ?_, ?_⟩
  · simp only [opEq, beq_iff_eq]
    unfold compareIce
    exact (lexCompare_eq_zero_iff _ _).mpr rfl
  · simp only [opLe, decide_eq_true_eq, opEq, beq_iff_eq]
    intro h1 h2
    omega
  · simp only [opLt, decide_eq_true_eq]
    intro h1 h2
    have v1 := lexCompare_cases (contentOf a) (contentOf b)
    have v2 := lexCompare_cases (contentOf b) (contentOf c)
    unfold compareIce at h1 h2 ⊢
    have h3 : lexCompare (contentOf a) (contentOf b) = -1 := by omega
    have h4 : lexCompare (contentOf b) (contentOf c) = -1 := by omega
    rw [lexCompare_trans_neg h3 h4]
    omega
  · rcases lexCompare_cases (contentOf a) (contentOf b) with h | h | h
    · refine Or.inl ⟨?_, ?_, ?_⟩
      · unfold opLt compareIce; rw [h]; decide
      · unfold opEq compareIce; rw [h]; decide
      · unfold opGt compareIce; rw [h]; decide
    · refine Or.inr (Or.inl ⟨?_, ?_, ?_⟩)
      · unfold opLt compareIce; rw [h]; decide
      · unfold opEq compareIce; rw [h]; decide
      · unfold opGt compareIce; rw [h]; decide
    · refine Or.inr (Or.inr ⟨?_, ?_, ?_⟩)
      · unfold opLt compareIce; rw [h]; decide
      · unfold opEq compareIce; rw [h]; decide
      · unfold opGt compareIce; rw [h]; decide

/-- C7 witness: transitivity of `<` applied to three concrete strings. -/
theorem operators_spec_witness :
    opLt (⟨[97, 0, 0, 0], 1⟩ : IceString 3) ⟨[98, 0, 0, 0], 1⟩ = true ∧
    opLt (⟨[98, 0, 0, 0], 1⟩ : IceString 3) ⟨[99, 0, 0, 0], 1⟩ = true ∧
    opLt (⟨[97, 0, 0, 0], 1⟩ : IceString 3) ⟨[99, 0, 0, 0], 1⟩ = true :=
  ⟨by decide, by decide,
    (operators_spec 3 ⟨[97, 0, 0, 0], 1⟩ ⟨[98, 0, 0, 0], 1⟩
        ⟨[99, 0, 0, 0], 1⟩).2.2.2.2.2.2.2.2.1 (by decide) (by decide)⟩

/-- C8: conversion to a dynamically-sized string yields exactly the bytes
`buffer[0, size)`, and feeding that value back through the truncating
`std::string` constructor of the same (sufficient) capacity reproduces the
original content and size. -/
theorem to_std_roundtrip (Capacity : Nat) (s : IceString Capacity)
    (hs : Invariant s) :
    toStdString s = s.m_rawstring.take s.m_rawstringSize ∧
    contentOf (truncCtorStd Capacity (toStdString s)) = contentOf s ∧
    sizeOf (truncCtorStd Capacity (toStdString s)) = sizeOf s := by
  have hlen : (toStdString s).length = sizeOf s := length_contentOf s hs
  have hle : (toStdString s).length ≤ Capacity := by
    rw [hlen]; exact hs.2.1
  obtain ⟨hsz, hcontent, _⟩ := trunc_aux Capacity (toStdString s)
  have hstd : truncCtorStd Capacity (toStdString s)
      = truncCtorRaw Capacity (toStdString s) := rfl
  have hmin : min (toStdString s).length Capacity = (toStdString s).length :=
    Nat.min_eq_left hle
  refine ⟨rfl, ?_, ?_⟩
  · rw [hstd, hcontent, hmin, List.take_length]
    rfl
  · rw [hstd, hsz, hmin, hlen]

/-- C8 witness: round-tripping the concrete string `"hi"` through the dynamic
string conversion reproduces its content. -/
theorem to_std_roundtrip_witness :
    Invariant (⟨[104, 105, 0, 0], 2⟩ : IceString 3) ∧
    contentOf (truncCtorStd 3 (toStdString (⟨[104, 105, 0, 0], 2⟩ : IceString 3)))
      = contentOf (⟨[104, 105, 0, 0], 2⟩ : IceString 3) :=
  ⟨by decide, (to_std_roundtrip 3 ⟨[104, 105, 0, 0], 2⟩ (by decide)).2.1⟩

/-- C9: the move constructor and move assignment transfer the source's size
and first `size + 1` buffer bytes to the destination, and leave the moved-from
source in a valid default-equivalent state: size 0 with a terminator at index
0. -/
theorem move_spec (Capacity : Nat) (self other : IceString Capacity)
    (hother : Invariant other) :
    sizeOf (moveCtor other).1 = sizeOf other ∧
    (moveCtor other).1.m_rawstring.take (sizeOf other + 1)
      = other.m_rawstring.take (sizeOf other + 1) ∧
    sizeOf (moveCtor other).2 = 0 ∧
    (moveCtor other).2.m_rawstring[0]? = some 0 ∧
    sizeOf (moveAssign self other).1 = sizeOf other ∧
    (moveAssign self other).1.m_rawstring.take (sizeOf other + 1)
      = other.m_rawstring.take (sizeOf other + 1) ∧
    sizeOf (moveAssign self other).2 = 0 ∧
    (moveAssign self other).2.m_rawstring[0]? = some 0 := by
  obtain ⟨hl, hsz, _⟩ := hother
  have hsrc : other.m_rawstringSize + 1 ≤ other.m_rawstring.length := by
    rw [hl]; omega
  have hterm0 : (other.m_rawstring.set 0 0)[0]? = some 0 :=
    List.getElem?_set_eq_of_lt 0 (by omega)
  unfold moveCtor moveAssign copyCtor copyAssign movedFrom sizeOf
  dsimp only
  exact ⟨rfl, take_overwrite _ _ _ _ le_rfl hsrc, rfl, hterm0,
    rfl, take_overwrite _ _ _ _ le_rfl hsrc, rfl, hterm0⟩

/-- C9 witness: moving from the concrete string `"hi"` transfers its bytes and
resets the source. -/
theorem move_spec_witness :
    Invariant (⟨[104, 105, 0, 0], 2⟩ : IceString 3) ∧
    sizeOf (moveCtor (⟨[104, 105, 0, 0], 2⟩ : IceString 3)).2 = 0 :=
  ⟨by decide,
    (move_spec 3 (defaultCtor 3) ⟨[104, 105, 0, 0], 2⟩ (by decide)).2.2.1⟩

/-- C10: a default-constructed bounded string has all `Capacity + 1` bytes of
its internal buffer equal to `'\0'` — the whole array is zero-initialized by
the in-class member initializer, not just the byte at index 0 — and its size
is 0. -/
theorem default_ctor_zeroed (Capacity i : Nat) (h : i ≤ Capacity) :
    (defaultCtor Capacity).m_rawstring.length = Capacity + 1 ∧
    (defaultCtor Capacity).m_rawstring[i]? = some 0 ∧
    sizeOf (defaultCtor Capacity) = 0 := by
  unfold defaultCtor initBuffer sizeOf
  refine ⟨by simp, ?_, rfl⟩
  dsimp only
  rw [List.getElem?_replicate]
  simp only [if_pos (by omega : i < Capacity + 1)]

/-- C10 witness: for capacity 3, the byte at index 3 (beyond any content) of a
default-constructed string is `'\0'`. -/
theorem default_ctor_zeroed_witness :
    (3 : Nat) ≤ 3 ∧ (defaultCtor 3).m_rawstring[3]? = some 0 :=
  ⟨by decide, (default_ctor_zeroed 3 3 (by decide)).2.1⟩

end IceCxx
